import Mathlib

/-!
Verification of the AgentHubX hybrid retrieval engine (backend/agentchat/services):
shallow embedding of the RAG data model, the vector-store clients, the
merge/dedup step, the two public pipelines, the deletion pipeline and the
embedding batcher, with theorems about the properties stated in the spec.

Scores are modelled as exact rationals; external calls (embedding provider,
reranker, query rewriter, store backends) are modelled as explicit oracles, and
a Python exception is modelled as the error case of an `Except` (or a dedicated
outcome constructor).  Each definition names the Python function it embeds.
-/

/-- SearchModel (agentchat/schema/search.py), the record produced at each store
boundary and consumed by the merge/rerank/filter pipeline. -/
structure SearchModel where
  content : String
  chunk_id : String
  file_id : String
  file_name : String
  knowledge_id : String
  update_time : String
  summary : String
  score : Rat
deriving DecidableEq

/-- One raw hit reported by the Milvus backend to `MilvusClient.search` /
`search_summary` (milvus_client.py lines 183, 231): entity fields plus the
backend-reported distance. -/
structure MilvusHit where
  content : String
  chunk_id : String
  file_id : String
  file_name : String
  knowledge_id : String
  update_time : String
  summary : String
  distance : Rat
deriving DecidableEq

/-- Result formatting of `MilvusClient.search` (milvus_client.py lines 182-197):
the SearchModel score is set to `hit.distance` unchanged. -/
def milvusFormatHit (h : MilvusHit) : SearchModel :=
  { content := h.content, chunk_id := h.chunk_id, file_id := h.file_id,
    file_name := h.file_name, knowledge_id := h.knowledge_id,
    update_time := h.update_time, summary := h.summary, score := h.distance }

/-- The result list built by `MilvusClient.search` from the backend hits
(milvus_client.py lines 182-197). -/
def milvus_search_results (hits : List MilvusHit) : List SearchModel :=
  hits.map milvusFormatHit

/-- The result list built by `MilvusClient.search_summary` from the backend
hits (milvus_client.py lines 229-245); the score is again `hit.distance`. -/
def milvus_search_summary_results (hits : List MilvusHit) : List SearchModel :=
  hits.map milvusFormatHit

/-- One row of a Chroma query result as consumed by `ChromaClient.search` /
`search_summary` (chroma_client.py lines 212-237, 316-338): document text,
metadata fields, the `is_summary` flag and the reported distance. -/
structure ChromaRow where
  document : String
  chunk_id : String
  file_id : String
  file_name : String
  knowledge_id : String
  update_time : String
  summary : String
  is_summary : Bool
  distance : Rat
deriving DecidableEq

/-- Row formatting shared by `ChromaClient.search` and `search_summary`
(chroma_client.py lines 219-237 and 320-338): `score = 1.0 - distance`. -/
def chromaFormatRow (r : ChromaRow) : SearchModel :=
  { content := r.document, chunk_id := r.chunk_id, file_id := r.file_id,
    file_name := r.file_name, knowledge_id := r.knowledge_id,
    update_time := r.update_time, summary := r.summary,
    score := 1 - r.distance }

/-- The result list of `ChromaClient.search` (chroma_client.py lines 212-241):
the loop skips rows flagged `is_summary`, converts each remaining row with
`score = 1 - distance`, and the function returns `documents[:top_k]`. -/
def chroma_search_results (rows : List ChromaRow) (top_k : Nat) : List SearchModel :=
  ((rows.filter (fun r => !r.is_summary)).map chromaFormatRow).take top_k

/-- The result list of `ChromaClient.search_summary` (chroma_client.py lines
316-342): rows are already restricted to summaries by the backend query, each
is converted with `score = 1 - distance`, and `documents[:top_k]` is
returned. -/
def chroma_search_summary_results (rows : List ChromaRow) (top_k : Nat) : List SearchModel :=
  (rows.map chromaFormatRow).take top_k

/-- The comparison underlying `list.sort(key=lambda x: x.score, reverse=True)`
in `RagHandler.mix_retrival_documents` (rag_handler.py lines 59, 60, 83). -/
def scoreGe (a b : SearchModel) : Prop := b.score ≤ a.score

instance : DecidableRel scoreGe := fun a b =>
  inferInstanceAs (Decidable (b.score ≤ a.score))

instance : IsTotal SearchModel scoreGe := ⟨fun a b => le_total b.score a.score⟩

instance : IsTrans SearchModel scoreGe := ⟨fun _ _ _ h1 h2 => le_trans h2 h1⟩

/-- A stable sort by score descending, the model of Python's stable
`list.sort(key=lambda x: x.score, reverse=True)`. -/
def sortByScoreDesc (l : List SearchModel) : List SearchModel :=
  l.insertionSort scoreGe

/-- The dedup walk of `RagHandler.mix_retrival_documents` (rag_handler.py lines
79-91): keep the first occurrence of each `chunk_id`, appending the kept
document and breaking as soon as ten documents have been collected. -/
def dedupTake (seen : List String) (count : Nat) : List SearchModel → List SearchModel
  | [] => []
  | d :: rest =>
    if d.chunk_id ∈ seen then dedupTake seen count rest
    else if 10 ≤ count + 1 then [d]
    else d :: dedupTake (d.chunk_id :: seen) (count + 1) rest

/-- The merge/dedup step of `RagHandler.mix_retrival_documents` (rag_handler.py
lines 55-95) on the Elasticsearch-enabled success path: each source list is
sorted by score descending, the lists are concatenated ES-first, the
concatenation is sorted by score descending again, and the dedup walk keeps
the first occurrence of each `chunk_id`, capped at ten documents. -/
def mergeDedup (es_documents milvus_documents : List SearchModel) : List SearchModel :=
  dedupTake [] 0
    (sortByScoreDesc (sortByScoreDesc es_documents ++ sortByScoreDesc milvus_documents))

/-- Which chunk field a fan-out retrieval searches, the `search_field` argument
threaded through `MixRetrival` and `RagHandler`. -/
inductive SearchField
  | content
  | summary
deriving DecidableEq

/-- One reranked document as returned by `Reranker.rerank_documents` and
consumed by the filter stage of both pipelines (rag_handler.py lines 118-131,
206-244). -/
structure RankedDoc where
  content : String
  score : Rat
deriving DecidableEq

/-- The projection applied implicitly when `retrieve_ranked_documents` falls
back to the retrieved documents after a rerank failure (rag_handler.py line
215): the later code reads only `.content` and `.score` of each entry. -/
def toRankedDoc (d : SearchModel) : RankedDoc :=
  { content := d.content, score := d.score }

/-- The retrieval configuration defaults `app_settings.rag.retrival`
(rag_handler.py lines 100-103, 158-164). -/
structure RagConfig where
  min_score : Rat
  top_k : Nat

/-- The store backends behind `RagHandler.mix_retrival_documents`
(rag_handler.py lines 55-73): the Elasticsearch feature flag, the combined
`MixRetrival.mix_retrival_documents` call returning the (ES, Milvus) pair, and
the Milvus-only `MixRetrival.retrival_milvus_documents` call.  An `error`
outcome models a Python exception escaping the call. -/
structure RetrievalBackend where
  es_enabled : Bool
  mixFetch : List String → List String → SearchField →
    Except Unit (List SearchModel × List SearchModel)
  milvusFetch : List String → List String → SearchField →
    Except Unit (List SearchModel)

/-- The external collaborators of the orchestrator: `query_rewriter.rewrite`
and `Reranker.rerank_documents` (rag_handler.py lines 36-38, 118, 206).  An
`error` outcome models a raised exception. -/
structure RagOracle where
  rewrite : String → Except Unit (List String)
  rerank : String → List String → Except Unit (List RankedDoc)

/-- `RagHandler.mix_retrival_documents` (rag_handler.py lines 49-95): with
Elasticsearch enabled the combined fetch feeds the ES-first merge/dedup; if
that fetch raises, or when Elasticsearch is disabled, the Milvus-only list is
sorted and deduplicated the same way.  A Milvus-only fetch exception is not
caught and propagates. -/
def mix_retrival_documents (b : RetrievalBackend) (query_list knowledges_id : List String)
    (search_field : SearchField) : Except Unit (List SearchModel) :=
  if b.es_enabled then
    match b.mixFetch query_list knowledges_id search_field with
    | Except.ok (es_documents, milvus_documents) =>
        Except.ok (mergeDedup es_documents milvus_documents)
    | Except.error _ =>
        match b.milvusFetch query_list knowledges_id search_field with
        | Except.ok all_documents =>
            Except.ok (dedupTake [] 0 (sortByScoreDesc all_documents))
        | Except.error e => Except.error e
  else
    match b.milvusFetch query_list knowledges_id search_field with
    | Except.ok all_documents =>
        Except.ok (dedupTake [] 0 (sortByScoreDesc all_documents))
    | Except.error e => Except.error e

/-- The query-rewrite step of `RagHandler.retrieve_ranked_documents`
(rag_handler.py lines 169-182): a rewrite exception is caught and the original
query is used; with rewriting disabled the original query is used directly. -/
def rrd_rewritten (o : RagOracle) (query : String) (needs_query_rewrite : Bool) : List String :=
  if needs_query_rewrite then
    match o.rewrite query with
    | Except.ok qs => qs
    | Except.error _ => [query]
  else [query]

/-- The rerank step of `RagHandler.retrieve_ranked_documents` (rag_handler.py
lines 204-215): a rerank exception is caught and the pre-rerank retrieved
documents are used in its place. -/
def rrd_reranked (o : RagOracle) (query : String) (retrieved : List SearchModel) : List RankedDoc :=
  match o.rerank query (retrieved.map SearchModel.content) with
  | Except.ok docs => docs
  | Except.error _ => retrieved.map toRankedDoc

/-- The filter stage of `RagHandler.retrieve_ranked_documents` (rag_handler.py
lines 220-230): truncate to `top_k` when longer, then keep documents with
`score >= min_score`. -/
def rrd_filtered (reranked : List RankedDoc) (min_score : Rat) (top_k : Nat) : List RankedDoc :=
  let docs_to_process := if reranked.length ≤ top_k then reranked else reranked.take top_k
  docs_to_process.filter (fun d => min_score ≤ d.score)

/-- `RagHandler.retrieve_ranked_documents` (rag_handler.py lines 137-250).
The first component is the returned string; the second records the
`search_field` of each fan-out retrieval performed during the call, as an
effect trace.  `index_names` is accepted but never used by the Python body
beyond logging. -/
def retrieve_ranked_documents (b : RetrievalBackend) (o : RagOracle) (cfg : RagConfig)
    (query : String) (collection_names : List String) (index_names : Option (List String))
    (min_score : Option Rat) (top_k : Option Nat) (needs_query_rewrite : Bool) :
    String × List SearchField :=
  let ms := min_score.getD cfg.min_score
  let tk := top_k.getD cfg.top_k
  let _ := index_names
  let rewritten_queries := rrd_rewritten o query needs_query_rewrite
  match mix_retrival_documents b rewritten_queries collection_names SearchField.content with
  | Except.error _ => ("Error occurred during document retrieval.", [SearchField.content])
  | Except.ok retrieved_documents =>
    let reranked_docs := rrd_reranked o query retrieved_documents
    let filtered_results := rrd_filtered reranked_docs ms tk
    if filtered_results.isEmpty then
      ("No relevant documents found.", [SearchField.content])
    else
      (String.intercalate "\n" (filtered_results.map RankedDoc.content), [SearchField.content])

/-- `RagHandler.rag_query_summary` (rag_handler.py lines 97-135).  The rewrite,
retrieval and rerank calls are not wrapped in try/except there, so their
exceptions propagate (`Except.error`).  When the reranked count reaches
`top_k` the filtered contents are joined and returned; otherwise the call
falls back to `retrieve_ranked_documents(query, knowledges_id, knowledges_id)`
with all remaining arguments left at their defaults.  The second component is
the trace of fan-out retrieval search fields. -/
def rag_query_summary (b : RetrievalBackend) (o : RagOracle) (cfg : RagConfig)
    (query : String) (knowledges_id : List String)
    (min_score : Option Rat) (top_k : Option Nat) (needs_query_rewrite : Bool) :
    Except Unit String × List SearchField :=
  let ms := min_score.getD cfg.min_score
  let tk := top_k.getD cfg.top_k
  match (if needs_query_rewrite then o.rewrite query else Except.ok [query]) with
  | Except.error e => (Except.error e, [])
  | Except.ok rewritten_queries =>
    match mix_retrival_documents b rewritten_queries knowledges_id SearchField.summary with
    | Except.error e => (Except.error e, [SearchField.summary])
    | Except.ok retrieved_documents =>
      match o.rerank query (retrieved_documents.map SearchModel.content) with
      | Except.error e => (Except.error e, [SearchField.summary])
      | Except.ok reranked_docs =>
        if tk ≤ reranked_docs.length then
          let filtered_results := (reranked_docs.take tk).filter (fun d => ms ≤ d.score)
          (Except.ok (String.intercalate "\n" (filtered_results.map RankedDoc.content)),
           [SearchField.summary])
        else
          let fallback := retrieve_ranked_documents b o cfg query knowledges_id
            (some knowledges_id) none none true
          (Except.ok fallback.1, SearchField.summary :: fallback.2)

/-- The possible outcomes of the backend interactions inside
`MilvusClient.delete_by_file_id` (milvus_client.py lines 251-279):
the collection is unavailable, the query/delete/flush path completes with
some number of matching rows, or an exception is raised mid-path. -/
inductive MilvusDeleteOutcome
  | unavailable
  | completed (matched : Nat)
  | raised
deriving DecidableEq

/-- `MilvusClient.delete_by_file_id` (milvus_client.py lines 251-279): returns
False when the collection is unavailable, True when the query/delete path
completes (whether or not any rows matched), and False when an exception is
caught. -/
def milvus_delete_by_file_id : MilvusDeleteOutcome → Bool
  | MilvusDeleteOutcome.unavailable => false
  | MilvusDeleteOutcome.completed _ => true
  | MilvusDeleteOutcome.raised => false

/-- `ChromaClient.delete_by_file_id` (chroma_client.py lines 350-364): the body
skips the underlying deletion entirely and always returns True. -/
def chroma_delete_by_file_id (file_id collection_name : String) : Bool :=
  let _ := file_id
  let _ := collection_name
  true

/-- Outcome of one awaited backend call inside
`RagHandler.delete_documents_es_milvus`: it returns a value or raises. -/
inductive CallOutcome (α : Type)
  | ok (value : α)
  | raised
deriving DecidableEq

/-- `RagHandler.delete_documents_es_milvus` (rag_handler.py lines 252-311):
the ES deletion (when enabled) and the vector-store deletion are each wrapped
in try/except; their outcomes only set the `es_success` / `milvus_success`
flags used for logging, and the function always returns True. -/
def delete_documents_es_milvus (file_id knowledge_id : String) (es_enabled : Bool)
    (es_delete : CallOutcome Unit) (milvus_delete : CallOutcome Bool) : Bool :=
  let _ := file_id
  let _ := knowledge_id
  let es_success : Bool :=
    if es_enabled then
      match es_delete with
      | CallOutcome.ok _ => true
      | CallOutcome.raised => false
    else true
  let milvus_success : Bool :=
    match milvus_delete with
    | CallOutcome.ok b => b
    | CallOutcome.raised => false
  let _ := es_success
  let _ := milvus_success
  true

/-- An embedding vector as returned by the provider. -/
abbrev Embedding := List Rat

/-- One provider-call record of the embedding service: (outer attempt, batch
index, inner attempt). -/
abbrev EmbedCallLog := List (Nat × Nat × Nat)

/-- The external embedding provider behind `get_embedding` (embedding.py):
`embed` is the vector the provider returns for a text; `fails outer idx a`
says whether the call for batch `idx` on inner attempt `a` of outer attempt
`outer` fails (timeout or provider error); `directFails a` likewise for the
direct small-input call on outer attempt `a`. -/
structure EmbedProvider where
  embed : String → Embedding
  fails : Nat → Nat → Nat → Bool
  directFails : Nat → Bool

/-- The batch split of `get_embedding` (embedding.py lines 116-118):
`[query[i:i + 5] for i in range(0, len(query), 5)]`, written by structural
recursion: a full batch of five is peeled off while possible, and a final
short non-empty remainder forms the last batch. -/
def chunksOf5 : List String → List (List String)
  | [] => []
  | x1 :: x2 :: x3 :: x4 :: x5 :: rest => [x1, x2, x3, x4, x5] :: chunksOf5 rest
  | l => [l]

/-- `process_batch` of `get_embedding` (embedding.py lines 78-114): up to
`fuel` attempts starting at inner attempt `a`; a failing attempt sleeps and
retries, a successful one returns one vector per batch item; exhausting the
attempts raises (`none`).  The second component logs every provider call. -/
def attemptBatch (p : EmbedProvider) (outer idx : Nat) (batch : List String) :
    Nat → Nat → Option (List Embedding) × EmbedCallLog
  | 0, _ => (none, [])
  | fuel + 1, a =>
    if p.fails outer idx a then
      let r := attemptBatch p outer idx batch fuel (a + 1)
      (r.1, (outer, idx, a) :: r.2)
    else (some (batch.map p.embed), [(outer, idx, a)])

/-- The sequential batch loop of `get_embedding` (embedding.py lines 122-141):
batches are processed in order starting at index `start`; a batch failure
re-raises and aborts the loop, otherwise the per-batch results are
concatenated. -/
def runBatches (p : EmbedProvider) (outer : Nat) :
    Nat → List (List String) → Option (List Embedding) × EmbedCallLog
  | _, [] => (some [], [])
  | start, batch :: rest =>
    match attemptBatch p outer start batch 3 0 with
    | (none, log) => (none, log)
    | (some r, log) =>
      match runBatches p outer (start + 1) rest with
      | (none, log2) => (none, log ++ log2)
      | (some rs, log2) => (some (r ++ rs), log ++ log2)

/-- The outer retry loop of `get_embedding` (embedding.py lines 44, 147-159)
on the large-input path: a failed pass over all batches is retried as a whole,
up to `fuel` outer attempts, after which the exception propagates (`none`). -/
def embedLargeLoop (p : EmbedProvider) (l : List String) :
    Nat → Nat → Option (List Embedding) × EmbedCallLog
  | 0, _ => (none, [])
  | fuel + 1, outer =>
    match runBatches p outer 0 (chunksOf5 l) with
    | (some r, log) => (some r, log)
    | (none, log) =>
      let r := embedLargeLoop p l fuel (outer + 1)
      (r.1, log ++ r.2)

/-- The outer retry loop of `get_embedding` on the small-input path
(embedding.py lines 44-70, 147-159): one direct provider call per outer
attempt, up to `fuel` attempts. -/
def embedSmallLoop (p : EmbedProvider) (l : List String) :
    Nat → Nat → Option (List Embedding) × EmbedCallLog
  | 0, _ => (none, [])
  | fuel + 1, a =>
    if p.directFails a then
      let r := embedSmallLoop p l fuel (a + 1)
      (r.1, (a, 0, a) :: r.2)
    else (some (l.map p.embed), [(a, 0, a)])

/-- `get_embedding` (embedding.py lines 19-159) on a list input: lists of at
most five items are sent in one direct call (retried by the outer loop);
longer lists are split into batches of five and processed by the batch loop
inside the outer retry loop.  `none` models the final raised exception;
the log records every provider call made. -/
def get_embedding_list (p : EmbedProvider) (l : List String) :
    Option (List Embedding) × EmbedCallLog :=
  if l.length ≤ 5 then embedSmallLoop p l 3 0 else embedLargeLoop p l 3 0

/-- How many provider calls a run logged for batch index `i`. -/
def batchCallCount (log : EmbedCallLog) (i : Nat) : Nat :=
  (log.filter (fun t => t.2.1 = i)).length

/-- Concrete keyword-sourced document: chunk c1 seen with score 7. -/
def docKw : SearchModel :=
  { content := "kw", chunk_id := "c1", file_id := "f1", file_name := "n1",
    knowledge_id := "kb", update_time := "t", summary := "s", score := 7 }

/-- Concrete vector-sourced document: chunk c1 seen with score 9. -/
def docVec : SearchModel :=
  { content := "vec", chunk_id := "c1", file_id := "f1", file_name := "n1",
    knowledge_id := "kb", update_time := "t", summary := "s", score := 9 }

/-- Concrete Milvus hit with backend distance 3. -/
def hitEx : MilvusHit :=
  { content := "c", chunk_id := "c1", file_id := "f1", file_name := "n1",
    knowledge_id := "kb", update_time := "t", summary := "s", distance := 3 }

/-- Concrete non-summary Chroma row with backend distance 3. -/
def rowEx : ChromaRow :=
  { document := "c", chunk_id := "c1", file_id := "f1", file_name := "n1",
    knowledge_id := "kb", update_time := "t", summary := "s",
    is_summary := false, distance := 3 }

/-- Concrete backend: Elasticsearch disabled, Milvus returning one document. -/
def bEx : RetrievalBackend :=
  { es_enabled := false,
    mixFetch := fun _ _ _ => Except.ok ([], []),
    milvusFetch := fun _ _ _ => Except.ok [docVec] }

/-- Concrete oracle: identity rewrite, reranker scoring every document 2. -/
def oEx : RagOracle :=
  { rewrite := fun q => Except.ok [q],
    rerank := fun _ docs => Except.ok (docs.map (fun c => { content := c, score := 2 })) }

/-- Concrete oracle whose reranker scores every document 0. -/
def oLow : RagOracle :=
  { rewrite := fun q => Except.ok [q],
    rerank := fun _ docs => Except.ok (docs.map (fun c => { content := c, score := 0 })) }

/-- Concrete oracle whose reranker raises on every call. -/
def oFail : RagOracle :=
  { rewrite := fun q => Except.ok [q],
    rerank := fun _ _ => Except.error () }

/-- Concrete configuration defaults. -/
def cfgEx : RagConfig := { min_score := 1, top_k := 1 }

/-- Concrete embedding provider that never fails and returns empty vectors. -/
def pEx : EmbedProvider :=
  { embed := fun _ => [], fails := fun _ _ _ => false, directFails := fun _ => false }

/-- Concrete embedding provider for which every call on batch index 1 fails. -/
def pBad : EmbedProvider :=
  { embed := fun _ => [], fails := fun _ idx _ => idx == 1, directFails := fun _ => false }

/-- A twelve-item embedding input. -/
def l12 : List String :=
  ["a", "b", "c", "d", "e", "f", "g", "h", "i", "j", "k", "l"]

/-- A six-item embedding input, split into batches of sizes five and one. -/
def l6 : List String := ["a", "b", "c", "d", "e", "f"]

/-- Every document kept by the dedup walk has a chunk_id that was not yet in
`seen` when the walk started. -/
theorem dedupTake_chunkId_not_seen :
    ∀ (l : List SearchModel) (seen : List String) (count : Nat) (d : SearchModel),
      d ∈ dedupTake seen count l → d.chunk_id ∉ seen := by
  intro l
  induction l with
  | nil => intro seen count d h; simp [dedupTake] at h
  | cons d0 rest ih =>
    intro seen count d h
    simp only [dedupTake] at h
    by_cases h0 : d0.chunk_id ∈ seen
    · rw [if_pos h0] at h
      exact ih seen count d h
    · rw [if_neg h0] at h
      by_cases h1 : 10 ≤ count + 1
      · rw [if_pos h1] at h
        rw [List.mem_singleton] at h
        subst h
        exact h0
      · rw [if_neg h1] at h
        rcases List.mem_cons.mp h with rfl | hmem
        · exact h0
        · intro hc
          exact ih _ _ d hmem (List.mem_cons_of_mem _ hc)

/-- Every document kept by the dedup walk comes from the input list. -/
theorem dedupTake_subset :
    ∀ (l : List SearchModel) (seen : List String) (count : Nat) (d : SearchModel),
      d ∈ dedupTake seen count l → d ∈ l := by
  intro l
  induction l with
  | nil => intro seen count d h; simp [dedupTake] at h
  | cons d0 rest ih =>
    intro seen count d h
    simp only [dedupTake] at h
    by_cases h0 : d0.chunk_id ∈ seen
    · rw [if_pos h0] at h
      exact List.mem_cons_of_mem _ (ih seen count d h)
    · rw [if_neg h0] at h
      by_cases h1 : 10 ≤ count + 1
      · rw [if_pos h1] at h
        rw [List.mem_singleton] at h
        subst h
        exact List.mem_cons_self _ _
      · rw [if_neg h1] at h
        rcases List.mem_cons.mp h with rfl | hmem
        · exact List.mem_cons_self _ _
        · exact List.mem_cons_of_mem _ (ih _ _ d hmem)

/-- On a score-descending input, every document kept by the dedup walk carries
the maximum score among the input entries with its chunk_id. -/
theorem dedupTake_max :
    ∀ (l : List SearchModel), l.Sorted scoreGe →
      ∀ (seen : List String) (count : Nat) (d : SearchModel),
        d ∈ dedupTake seen count l →
        ∀ e ∈ l, e.chunk_id = d.chunk_id → e.score ≤ d.score := by
  intro l
  induction l with
  | nil => intro _ seen count d h; simp [dedupTake] at h
  | cons d0 rest ih =>
    intro hs seen count d h e he hid
    have hhead : ∀ x ∈ rest, scoreGe d0 x := List.rel_of_sorted_cons hs
    have hrest : rest.Sorted scoreGe := hs.of_cons
    simp only [dedupTake] at h
    by_cases h0 : d0.chunk_id ∈ seen
    · rw [if_pos h0] at h
      have hns := dedupTake_chunkId_not_seen rest seen count d h
      rcases List.mem_cons.mp he with rfl | hmem
      · exact absurd (hid ▸ h0) hns
      · exact ih hrest seen count d h e hmem hid
    · rw [if_neg h0] at h
      by_cases h1 : 10 ≤ count + 1
      · rw [if_pos h1] at h
        rw [List.mem_singleton] at h
        subst h
        rcases List.mem_cons.mp he with rfl | hmem
        · exact le_refl _
        · exact hhead e hmem
      · rw [if_neg h1] at h
        rcases List.mem_cons.mp h with rfl | hrec
        · rcases List.mem_cons.mp he with rfl | hmem
          · exact le_refl _
          · exact hhead e hmem
        · have hns := dedupTake_chunkId_not_seen rest _ _ d hrec
          rcases List.mem_cons.mp he with rfl | hmem
          · exact absurd (List.mem_cons_self _ _) (hid ▸ hns)
          · exact ih hrest _ _ d hrec e hmem hid

/-- The dedup walk emits pairwise distinct chunk_ids. -/
theorem dedupTake_nodup :
    ∀ (l : List SearchModel) (seen : List String) (count : Nat),
      ((dedupTake seen count l).map SearchModel.chunk_id).Nodup := by
  intro l
  induction l with
  | nil => intro seen count; simp [dedupTake]
  | cons d0 rest ih =>
    intro seen count
    simp only [dedupTake]
    by_cases h0 : d0.chunk_id ∈ seen
    · rw [if_pos h0]
      exact ih seen count
    · rw [if_neg h0]
      by_cases h1 : 10 ≤ count + 1
      · rw [if_pos h1]
        simp
      · rw [if_neg h1]
        rw [List.map_cons, List.nodup_cons]
        refine ⟨?_, ih _ _⟩
        intro hc
        rcases List.mem_map.mp hc with ⟨x, hx, hxe⟩
        have := dedupTake_chunkId_not_seen rest _ _ x hx
        exact this (hxe ▸ List.mem_cons_self _ _)

/-- The sorted-then-deduplicated list is a permutation-view helper: it relates
the dedup input of `mergeDedup` back to the two source lists. -/
theorem mergeDedup_input_perm (es_documents milvus_documents : List SearchModel) :
    (sortByScoreDesc (sortByScoreDesc es_documents ++ sortByScoreDesc milvus_documents)).Perm
      (es_documents ++ milvus_documents) := by
  refine (List.perm_insertionSort scoreGe _).trans ?_
  exact List.Perm.append (List.perm_insertionSort scoreGe _) (List.perm_insertionSort scoreGe _)

/-- C2: for every pair of input lists handed to the merge/dedup step of
`RagHandler.mix_retrival_documents`, the merged output has at most one entry
per chunk_id, and each kept entry carries the maximum score observed for its
chunk_id across both input lists. -/
theorem mergeDedup_unique_and_max (es_documents milvus_documents : List SearchModel) :
    ((mergeDedup es_documents milvus_documents).map SearchModel.chunk_id).Nodup ∧
    ∀ d ∈ mergeDedup es_documents milvus_documents,
      d ∈ es_documents ++ milvus_documents ∧
      ∀ e ∈ es_documents ++ milvus_documents,
        e.chunk_id = d.chunk_id → e.score ≤ d.score := by
  constructor
  · exact dedupTake_nodup _ [] 0
  · intro d hd
    have hperm := mergeDedup_input_perm es_documents milvus_documents
    have hsorted : (sortByScoreDesc (sortByScoreDesc es_documents ++
        sortByScoreDesc milvus_documents)).Sorted scoreGe :=
      List.sorted_insertionSort scoreGe _
    constructor
    · exact hperm.mem_iff.mp (dedupTake_subset _ [] 0 d hd)
    · intro e he hid
      exact dedupTake_max _ hsorted [] 0 d hd e (hperm.mem_iff.mpr he) hid

/-- Witness for C2 at the spec's example: chunk c1 arrives from the keyword
source with score 7 and from the vector source with score 9; the merged output
is the single score-9 entry, whose score dominates the keyword one. -/
theorem mergeDedup_unique_and_max_witness :
    mergeDedup [docKw] [docVec] = [docVec] ∧ docKw.score ≤ docVec.score :=
  ⟨by decide,
   ((mergeDedup_unique_and_max [docKw] [docVec]).2 docVec (by decide)).2 docKw
     (by decide) (by decide)⟩

/-- Counterexample to C1: a Milvus hit with backend distance 3 is returned
with score 3, the raw distance, not 1 - 3. -/
theorem milvus_score_raw_distance_counterexample :
    (milvus_search_results [hitEx]).map SearchModel.score = [hitEx.distance] ∧
    hitEx.distance ≠ 1 - hitEx.distance := by
  refine ⟨rfl, ?_⟩
  show (3 : Rat) ≠ 1 - 3
  norm_num

/-- C1 amended: the Chroma-backed client converts each returned score via
`score = 1 - distance` (in both search and search_summary), while the
Milvus-backed client returns the backend-reported distance itself as the
score, with no conversion. -/
theorem search_score_normalization (hits : List MilvusHit) (rows rows2 : List ChromaRow)
    (k k2 : Nat) :
    (∀ d ∈ milvus_search_results hits, ∃ h ∈ hits, d.score = h.distance) ∧
    (∀ d ∈ milvus_search_summary_results hits, ∃ h ∈ hits, d.score = h.distance) ∧
    (∀ d ∈ chroma_search_results rows k,
      ∃ r ∈ rows, r.is_summary = false ∧ d.score = 1 - r.distance) ∧
    (∀ d ∈ chroma_search_summary_results rows2 k2,
      ∃ r ∈ rows2, d.score = 1 - r.distance) := by
  refine ⟨?_, ?_, ?_, ?_⟩
  · intro d hd
    rcases List.mem_map.mp hd with ⟨h, hh, rfl⟩
    exact ⟨h, hh, rfl⟩
  · intro d hd
    rcases List.mem_map.mp hd with ⟨h, hh, rfl⟩
    exact ⟨h, hh, rfl⟩
  · intro d hd
    have hd2 := List.mem_of_mem_take hd
    rcases List.mem_map.mp hd2 with ⟨r, hr, rfl⟩
    have hr2 := List.mem_filter.mp hr
    refine ⟨r, hr2.1, ?_, rfl⟩
    simpa using hr2.2
  · intro d hd
    have hd2 := List.mem_of_mem_take hd
    rcases List.mem_map.mp hd2 with ⟨r, hr, rfl⟩
    exact ⟨r, hr, rfl⟩

/-- Witness for C1 amended: on the concrete Milvus hit the returned score is
its raw distance, and on the concrete Chroma row the returned score is
1 - distance. -/
theorem search_score_normalization_witness :
    (∃ h ∈ [hitEx], (milvusFormatHit hitEx).score = h.distance) ∧
    (∃ r ∈ [rowEx], r.is_summary = false ∧ (chromaFormatRow rowEx).score = 1 - r.distance) :=
  ⟨(search_score_normalization [hitEx] [] [] 0 0).1 (milvusFormatHit hitEx)
     (by simp [milvus_search_results]),
   (search_score_normalization [] [rowEx] [] 1 0).2.2.1 (chromaFormatRow rowEx)
     (by simp [chroma_search_results, rowEx])⟩

/-- Counterexample to C4: the Milvus-backed `delete_by_file_id` returns False
both when the backend raises and when the collection is unavailable. -/
theorem milvus_delete_false_on_failure_counterexample :
    milvus_delete_by_file_id MilvusDeleteOutcome.raised = false ∧
    milvus_delete_by_file_id MilvusDeleteOutcome.unavailable = false := by
  decide

/-- C4 amended: the Chroma-backed `delete_by_file_id` always returns True
(it skips the deletion entirely); the Milvus-backed one returns True whenever
its query/delete path completes (even with zero matching rows), but returns
False when the collection is unavailable or the deletion raises. -/
theorem delete_by_file_id_results (file_id collection_name : String) (matched : Nat) :
    chroma_delete_by_file_id file_id collection_name = true ∧
    milvus_delete_by_file_id (MilvusDeleteOutcome.completed matched) = true ∧
    milvus_delete_by_file_id MilvusDeleteOutcome.unavailable = false ∧
    milvus_delete_by_file_id MilvusDeleteOutcome.raised = false := by
  exact ⟨rfl, rfl, rfl, rfl⟩

/-- C5: `RagHandler.delete_documents_es_milvus` returns True for every
combination of backend outcomes (success, reported failure, or raised
exception on either store), and in particular two successive calls for the
same file_id both return True. -/
theorem delete_documents_always_true (file_id knowledge_id : String)
    (es_enabled1 es_enabled2 : Bool) (es1 es2 : CallOutcome Unit)
    (mv1 mv2 : CallOutcome Bool) :
    delete_documents_es_milvus file_id knowledge_id es_enabled1 es1 mv1 = true ∧
    delete_documents_es_milvus file_id knowledge_id es_enabled2 es2 mv2 = true := by
  exact ⟨rfl, rfl⟩

/-- `retrieve_ranked_documents` performs exactly one fan-out retrieval, always
on the content field, on every control path. -/
theorem retrieve_ranked_documents_trace (b : RetrievalBackend) (o : RagOracle)
    (cfg : RagConfig) (query : String) (collection_names : List String)
    (index_names : Option (List String)) (min_score : Option Rat) (top_k : Option Nat)
    (needs_query_rewrite : Bool) :
    (retrieve_ranked_documents b o cfg query collection_names index_names
      min_score top_k needs_query_rewrite).2 = [SearchField.content] := by
  unfold retrieve_ranked_documents
  cases h : mix_retrival_documents b (rrd_rewritten o query needs_query_rewrite)
      collection_names SearchField.content with
  | error e => simp [h]
  | ok docs =>
    simp only [h]
    by_cases hemp : (rrd_filtered (rrd_reranked o query docs)
        (min_score.getD cfg.min_score) (top_k.getD cfg.top_k)).isEmpty
    · simp [hemp]
    · simp [hemp]

/-- Unfolding of `rag_query_summary` once the rewrite, retrieval and rerank
outcomes of the summary pass are fixed: the call either returns the filtered
stage-A join (reranked count at least top_k) or delegates to
`retrieve_ranked_documents` with default arguments. -/
theorem rag_query_summary_eq (b : RetrievalBackend) (o : RagOracle) (cfg : RagConfig)
    (query : String) (knowledges_id : List String) (min_score : Option Rat)
    (top_k : Option Nat) (needs_query_rewrite : Bool)
    (rewritten : List String) (retrieved : List SearchModel) (reranked : List RankedDoc)
    (h1 : (if needs_query_rewrite then o.rewrite query else Except.ok [query]) =
      Except.ok rewritten)
    (h2 : mix_retrival_documents b rewritten knowledges_id SearchField.summary =
      Except.ok retrieved)
    (h3 : o.rerank query (retrieved.map SearchModel.content) = Except.ok reranked) :
    rag_query_summary b o cfg query knowledges_id min_score top_k needs_query_rewrite =
      if top_k.getD cfg.top_k ≤ reranked.length then
        (Except.ok (String.intercalate "\n"
          (((reranked.take (top_k.getD cfg.top_k)).filter
            (fun d => min_score.getD cfg.min_score ≤ d.score)).map RankedDoc.content)),
         [SearchField.summary])
      else
        (Except.ok (retrieve_ranked_documents b o cfg query knowledges_id
            (some knowledges_id) none none true).1,
         SearchField.summary :: (retrieve_ranked_documents b o cfg query knowledges_id
            (some knowledges_id) none none true).2) := by
  unfold rag_query_summary
  rw [h1]
  dsimp only
  rw [h2]
  dsimp only
  rw [h3]

/-- C3: with the summary pass's rewrite, retrieval and rerank outcomes fixed,
a reranked count strictly below top_k makes `rag_query_summary` abandon the
summary output and return the result of one content-field
`retrieve_ranked_documents` pass (trace: summary retrieval then content
retrieval, nothing further); a count of at least top_k performs no fallback
retrieval at all. -/
theorem rag_query_summary_fallback_trigger (b : RetrievalBackend) (o : RagOracle)
    (cfg : RagConfig) (query : String) (knowledges_id : List String)
    (min_score : Option Rat) (top_k : Option Nat) (needs_query_rewrite : Bool)
    (rewritten : List String) (retrieved : List SearchModel) (reranked : List RankedDoc)
    (h1 : (if needs_query_rewrite then o.rewrite query else Except.ok [query]) =
      Except.ok rewritten)
    (h2 : mix_retrival_documents b rewritten knowledges_id SearchField.summary =
      Except.ok retrieved)
    (h3 : o.rerank query (retrieved.map SearchModel.content) = Except.ok reranked) :
    (reranked.length < top_k.getD cfg.top_k →
      rag_query_summary b o cfg query knowledges_id min_score top_k needs_query_rewrite =
        (Except.ok (retrieve_ranked_documents b o cfg query knowledges_id
            (some knowledges_id) none none true).1,
         [SearchField.summary, SearchField.content])) ∧
    (top_k.getD cfg.top_k ≤ reranked.length →
      (rag_query_summary b o cfg query knowledges_id min_score top_k
        needs_query_rewrite).2 = [SearchField.summary]) := by
  have he := rag_query_summary_eq b o cfg query knowledges_id min_score top_k
    needs_query_rewrite rewritten retrieved reranked h1 h2 h3
  constructor
  · intro hlt
    rw [he, if_neg (not_le.mpr hlt),
      retrieve_ranked_documents_trace b o cfg query knowledges_id (some knowledges_id)
        none none true]
  · intro hge
    rw [he, if_pos hge]

/-- Witness for C3: with one retrieved document reranked to a single entry and
top_k 2, the fallback fires and the result is the content pass's output. -/
theorem rag_query_summary_fallback_trigger_witness :
    rag_query_summary bEx oEx cfgEx "q" ["kb"] none (some 2) false =
      (Except.ok (retrieve_ranked_documents bEx oEx cfgEx "q" ["kb"] (some ["kb"])
          none none true).1,
       [SearchField.summary, SearchField.content]) :=
  (rag_query_summary_fallback_trigger bEx oEx cfgEx "q" ["kb"] none (some 2) false
    ["q"] [docVec] [{ content := "vec", score := 2 }] rfl rfl rfl).1 (by norm_num)

/-- The fallback argument defaults: with `min_score` and `top_k` left as None,
`retrieve_ranked_documents` behaves exactly as if the configuration defaults
had been passed. -/
theorem retrieve_ranked_documents_default_args (b : RetrievalBackend) (o : RagOracle)
    (cfg : RagConfig) (query : String) (collection_names : List String)
    (index_names : Option (List String)) (needs_query_rewrite : Bool) :
    retrieve_ranked_documents b o cfg query collection_names index_names
        none none needs_query_rewrite =
      retrieve_ranked_documents b o cfg query collection_names index_names
        (some cfg.min_score) (some cfg.top_k) needs_query_rewrite := by
  unfold retrieve_ranked_documents
  rfl

/-- C10: when the content-field fallback of `rag_query_summary` fires, the
caller's `min_score`, `top_k` and rewrite flag are not forwarded: the fallback
call is `retrieve_ranked_documents(query, knowledges_id, knowledges_id)` with
min_score None, top_k None and rewriting enabled, so it filters with the
configuration defaults and rewrites the query again. -/
theorem rag_query_summary_fallback_ignores_caller_args (b : RetrievalBackend)
    (o : RagOracle) (cfg : RagConfig) (query : String) (knowledges_id : List String)
    (m : Rat) (k : Nat) (needs_query_rewrite : Bool)
    (rewritten : List String) (retrieved : List SearchModel) (reranked : List RankedDoc)
    (h1 : (if needs_query_rewrite then o.rewrite query else Except.ok [query]) =
      Except.ok rewritten)
    (h2 : mix_retrival_documents b rewritten knowledges_id SearchField.summary =
      Except.ok retrieved)
    (h3 : o.rerank query (retrieved.map SearchModel.content) = Except.ok reranked)
    (hlt : reranked.length < k) :
    rag_query_summary b o cfg query knowledges_id (some m) (some k) needs_query_rewrite =
      (Except.ok (retrieve_ranked_documents b o cfg query knowledges_id
          (some knowledges_id) none none true).1,
       SearchField.summary :: (retrieve_ranked_documents b o cfg query knowledges_id
          (some knowledges_id) none none true).2) ∧
    retrieve_ranked_documents b o cfg query knowledges_id (some knowledges_id)
        none none true =
      retrieve_ranked_documents b o cfg query knowledges_id (some knowledges_id)
        (some cfg.min_score) (some cfg.top_k) true := by
  constructor
  · have he := rag_query_summary_eq b o cfg query knowledges_id (some m) (some k)
      needs_query_rewrite rewritten retrieved reranked h1 h2 h3
    rw [he]
    simp only [Option.getD_some]
    rw [if_neg (not_le.mpr hlt)]
  · exact retrieve_ranked_documents_default_args b o cfg query knowledges_id
      (some knowledges_id) true

/-- Witness for C10: a caller-supplied min_score of 5, top_k of 2 and
rewriting disabled; the fallback fires with default arguments. -/
theorem rag_query_summary_fallback_ignores_caller_args_witness :
    rag_query_summary bEx oEx cfgEx "q" ["kb"] (some 5) (some 2) false =
      (Except.ok (retrieve_ranked_documents bEx oEx cfgEx "q" ["kb"] (some ["kb"])
          none none true).1,
       SearchField.summary :: (retrieve_ranked_documents bEx oEx cfgEx "q" ["kb"]
          (some ["kb"]) none none true).2) ∧
    retrieve_ranked_documents bEx oEx cfgEx "q" ["kb"] (some ["kb"]) none none true =
      retrieve_ranked_documents bEx oEx cfgEx "q" ["kb"] (some ["kb"])
        (some cfgEx.min_score) (some cfgEx.top_k) true :=
  rag_query_summary_fallback_ignores_caller_args bEx oEx cfgEx "q" ["kb"] 5 2 false
    ["q"] [docVec] [{ content := "vec", score := 2 }] rfl rfl rfl (by norm_num)

/-- Counterexample to C8: with one retrieved document reranked to score 0,
min_score 1 and top_k 1, the stage-A branch of `rag_query_summary` survives
the count check but the filter empties it, and the call returns the empty
string rather than the "no relevant documents" sentinel. -/
theorem rag_query_summary_empty_string_counterexample :
    (rag_query_summary bEx oLow cfgEx "q" ["kb"] (some 1) (some 1) false).1 =
      Except.ok "" ∧
    ("" : String) ≠ "No relevant documents found." := by
  exact ⟨rfl, by decide⟩

/-- C8 amended: `retrieve_ranked_documents` returns the fixed non-empty "No
relevant documents found." sentinel whenever the top-k/min-score filter leaves
no documents; `rag_query_summary`, in its non-fallback branch, joins the
surviving contents directly and thus returns the empty string when nothing
survives. -/
theorem retrieve_ranked_documents_empty_sentinel (b : RetrievalBackend) (o : RagOracle)
    (cfg : RagConfig) (query : String) (collection_names : List String)
    (index_names : Option (List String)) (min_score : Option Rat) (top_k : Option Nat)
    (needs_query_rewrite : Bool) (retrieved : List SearchModel)
    (h2 : mix_retrival_documents b (rrd_rewritten o query needs_query_rewrite)
      collection_names SearchField.content = Except.ok retrieved)
    (hemp : rrd_filtered (rrd_reranked o query retrieved)
      (min_score.getD cfg.min_score) (top_k.getD cfg.top_k) = []) :
    (retrieve_ranked_documents b o cfg query collection_names index_names
      min_score top_k needs_query_rewrite).1 = "No relevant documents found." ∧
    ("No relevant documents found." : String) ≠ "" := by
  constructor
  · unfold retrieve_ranked_documents
    dsimp only
    rw [h2]
    dsimp only
    rw [hemp]
    rfl
  · decide

/-- Witness for C8 amended: the concrete low-scoring run makes the filter
empty and `retrieve_ranked_documents` returns the sentinel. -/
theorem retrieve_ranked_documents_empty_sentinel_witness :
    (retrieve_ranked_documents bEx oLow cfgEx "q" ["kb"] none (some 1) (some 1)
      false).1 = "No relevant documents found." ∧
    ("No relevant documents found." : String) ≠ "" :=
  retrieve_ranked_documents_empty_sentinel bEx oLow cfgEx "q" ["kb"] none (some 1)
    (some 1) false [docVec] rfl rfl

/-- Counterexample to C9: a reranker exception inside `rag_query_summary` is
not caught; the call propagates the error instead of degrading to the
pre-rerank merged ordering. -/
theorem rag_query_summary_rerank_error_counterexample :
    (rag_query_summary bEx oFail cfgEx "q" ["kb"] none none false).1 =
      Except.error () := by
  rfl

/-- C9 amended: in `retrieve_ranked_documents` a reranker exception is caught
and the pipeline continues with the pre-rerank retrieved documents (projected
to content and score), producing the normal filtered output rather than an
error; `rag_query_summary` does not catch it. -/
theorem retrieve_ranked_documents_rerank_failure_degrades (o : RagOracle)
    (query : String) (retrieved : List SearchModel)
    (hfail : o.rerank query (retrieved.map SearchModel.content) = Except.error ()) :
    rrd_reranked o query retrieved = retrieved.map toRankedDoc ∧
    ∀ (b : RetrievalBackend) (cfg : RagConfig) (collection_names : List String)
      (index_names : Option (List String)) (min_score : Option Rat)
      (top_k : Option Nat) (needs_query_rewrite : Bool),
      mix_retrival_documents b (rrd_rewritten o query needs_query_rewrite)
        collection_names SearchField.content = Except.ok retrieved →
      (retrieve_ranked_documents b o cfg query collection_names index_names
        min_score top_k needs_query_rewrite).1 =
        (let filtered := rrd_filtered (retrieved.map toRankedDoc)
          (min_score.getD cfg.min_score) (top_k.getD cfg.top_k)
         if filtered.isEmpty then "No relevant documents found."
         else String.intercalate "\n" (filtered.map RankedDoc.content)) := by
  have hr : rrd_reranked o query retrieved = retrieved.map toRankedDoc := by
    unfold rrd_reranked
    rw [hfail]
  refine ⟨hr, ?_⟩
  intro b cfg collection_names index_names min_score top_k needs_query_rewrite h2
  unfold retrieve_ranked_documents
  dsimp only
  rw [h2]
  dsimp only
  rw [hr]
  split <;> rfl

/-- Witness for C9 amended: with the always-raising reranker the concrete
retrieval degrades to the pre-rerank document. -/
theorem retrieve_ranked_documents_rerank_failure_degrades_witness :
    rrd_reranked oFail "q" [docVec] = [docVec].map toRankedDoc :=
  (retrieve_ranked_documents_rerank_failure_degrades oFail "q" [docVec] rfl).1

/-- The batch split is consecutive: concatenating the batches restores the
input. -/
theorem chunksOf5_flatten : ∀ l : List String, (chunksOf5 l).flatten = l
  | [] => by simp [chunksOf5]
  | x1 :: x2 :: x3 :: x4 :: x5 :: rest => by
    rw [chunksOf5, List.flatten_cons, chunksOf5_flatten rest]
    rfl
  | [x1] => by simp [chunksOf5]
  | [x1, x2] => by simp [chunksOf5]
  | [x1, x2, x3] => by simp [chunksOf5]
  | [x1, x2, x3, x4] => by simp [chunksOf5]

/-- Every batch produced by the split is non-empty and holds at most five
items. -/
theorem chunksOf5_mem : ∀ (l : List String), ∀ c ∈ chunksOf5 l, c ≠ [] ∧ c.length ≤ 5
  | [] => by intro c hc; simp [chunksOf5] at hc
  | x1 :: x2 :: x3 :: x4 :: x5 :: rest => by
    intro c hc
    rw [chunksOf5] at hc
    rcases List.mem_cons.mp hc with rfl | hmem
    · exact ⟨by simp, by simp⟩
    · exact chunksOf5_mem rest c hmem
  | [x1] => by
    intro c hc
    rw [show chunksOf5 [x1] = [[x1]] from rfl] at hc
    simp at hc
    subst hc
    exact ⟨by simp, by simp⟩
  | [x1, x2] => by
    intro c hc
    rw [show chunksOf5 [x1, x2] = [[x1, x2]] from rfl] at hc
    simp at hc
    subst hc
    exact ⟨by simp, by simp⟩
  | [x1, x2, x3] => by
    intro c hc
    rw [show chunksOf5 [x1, x2, x3] = [[x1, x2, x3]] from rfl] at hc
    simp at hc
    subst hc
    exact ⟨by simp, by simp⟩
  | [x1, x2, x3, x4] => by
    intro c hc
    rw [show chunksOf5 [x1, x2, x3, x4] = [[x1, x2, x3, x4]] from rfl] at hc
    simp at hc
    subst hc
    exact ⟨by simp, by simp⟩

/-- If some inner attempt below the fuel bound succeeds, `process_batch`
returns one embedding per batch item. -/
theorem attemptBatch_success (p : EmbedProvider) (outer idx : Nat) (batch : List String)
    (h : ∃ a, a < 3 ∧ p.fails outer idx a = false) :
    (attemptBatch p outer idx batch 3 0).1 = some (batch.map p.embed) := by
  by_cases h0 : p.fails outer idx 0
  · by_cases h1 : p.fails outer idx 1
    · have h2 : p.fails outer idx 2 = false := by
        rcases h with ⟨a, ha, hf⟩
        have : a = 0 ∨ a = 1 ∨ a = 2 := by omega
        rcases this with rfl | rfl | rfl
        · rw [hf] at h0; exact absurd h0 (by simp)
        · rw [hf] at h1; exact absurd h1 (by simp)
        · exact hf
      simp [attemptBatch, h0, h1, h2]
    · simp [attemptBatch, h0, h1]
  · simp [attemptBatch, h0]

/-- Whenever `process_batch` succeeds, its value is exactly one embedding per
batch item, in batch order. -/
theorem attemptBatch_value (p : EmbedProvider) (outer idx : Nat) (batch : List String) :
    ∀ (fuel a : Nat) (r : List Embedding),
      (attemptBatch p outer idx batch fuel a).1 = some r → r = batch.map p.embed := by
  intro fuel
  induction fuel with
  | zero => intro a r h; simp [attemptBatch] at h
  | succ n ih =>
    intro a r h
    simp only [attemptBatch] at h
    by_cases hf : p.fails outer idx a
    · rw [if_pos hf] at h
      exact ih (a + 1) r h
    · rw [if_neg hf] at h
      simp at h
      exact h.symm

/-- Every provider call logged by `process_batch` is for its own batch index,
and there are at most `fuel` of them. -/
theorem attemptBatch_log (p : EmbedProvider) (outer idx : Nat) (batch : List String) :
    ∀ (fuel a : Nat),
      (attemptBatch p outer idx batch fuel a).2.length ≤ fuel ∧
      ∀ t ∈ (attemptBatch p outer idx batch fuel a).2, t.2.1 = idx := by
  intro fuel
  induction fuel with
  | zero => intro a; simp [attemptBatch]
  | succ n ih =>
    intro a
    simp only [attemptBatch]
    by_cases hf : p.fails outer idx a
    · rw [if_pos hf]
      refine ⟨?_, ?_⟩
      · simpa using Nat.succ_le_succ (ih (a + 1)).1
      · intro t ht
        rcases List.mem_cons.mp ht with rfl | hmem
        · rfl
        · exact (ih (a + 1)).2 t hmem
    · rw [if_neg hf]
      refine ⟨by simp, ?_⟩
      intro t ht
      rcases List.mem_cons.mp ht with rfl | hmem
      · rfl
      · simp at hmem

/-- Splitting a call-count over a concatenated log. -/
theorem batchCallCount_append (log1 log2 : EmbedCallLog) (i : Nat) :
    batchCallCount (log1 ++ log2) i = batchCallCount log1 i + batchCallCount log2 i := by
  unfold batchCallCount
  rw [List.filter_append, List.length_append]

/-- A log whose entries all concern other batch indices counts zero calls. -/
theorem batchCallCount_eq_zero (log : EmbedCallLog) (i : Nat)
    (h : ∀ t ∈ log, t.2.1 ≠ i) : batchCallCount log i = 0 := by
  unfold batchCallCount
  rw [List.filter_eq_nil_iff.mpr ?_]
  · rfl
  · intro t ht
    simp [h t ht]

/-- A call count never exceeds the log length. -/
theorem batchCallCount_le_length (log : EmbedCallLog) (i : Nat) :
    batchCallCount log i ≤ log.length :=
  List.length_filter_le _ log

/-- Every provider call logged by the sequential batch loop concerns a batch
index at or after the loop's starting index. -/
theorem runBatches_log_ge (p : EmbedProvider) (outer : Nat) :
    ∀ (bs : List (List String)) (start : Nat),
      ∀ t ∈ (runBatches p outer start bs).2, start ≤ t.2.1 := by
  intro bs
  induction bs with
  | nil => intro start t ht; simp [runBatches] at ht
  | cons b rest ih =>
    intro start t ht
    simp only [runBatches] at ht
    rcases hab : attemptBatch p outer start b 3 0 with ⟨r1, log1⟩
    have hidx : ∀ u ∈ log1, u.2.1 = start := by
      have := (attemptBatch_log p outer start b 3 0).2
      rw [hab] at this
      exact this
    rw [hab] at ht
    cases r1 with
    | none =>
      simp at ht
      exact le_of_eq (hidx t ht).symm
    | some r =>
      rcases hrb : runBatches p outer (start + 1) rest with ⟨r2, log2⟩
      rw [hrb] at ht
      have hrest : ∀ u ∈ log2, start + 1 ≤ u.2.1 := by
        intro u hu
        have := ih (start + 1) u
        rw [hrb] at this
        exact this hu
      cases r2 with
      | none =>
        simp at ht
        rcases ht with hm | hm
        · exact le_of_eq (hidx t hm).symm
        · exact le_trans (Nat.le_succ start) (hrest t hm)
      | some rs =>
        simp at ht
        rcases ht with hm | hm
        · exact le_of_eq (hidx t hm).symm
        · exact le_trans (Nat.le_succ start) (hrest t hm)

/-- Within one pass of the sequential batch loop, each batch index is
attempted at most three times. -/
theorem runBatches_count_le_three (p : EmbedProvider) (outer : Nat) :
    ∀ (bs : List (List String)) (start i : Nat),
      batchCallCount (runBatches p outer start bs).2 i ≤ 3 := by
  intro bs
  induction bs with
  | nil => intro start i; simp [runBatches, batchCallCount]
  | cons b rest ih =>
    intro start i
    simp only [runBatches]
    rcases hab : attemptBatch p outer start b 3 0 with ⟨r1, log1⟩
    have hlen : log1.length ≤ 3 := by
      have := (attemptBatch_log p outer start b 3 0).1
      rw [hab] at this
      exact this
    have hidx : ∀ u ∈ log1, u.2.1 = start := by
      have := (attemptBatch_log p outer start b 3 0).2
      rw [hab] at this
      exact this
    have hcount1 : batchCallCount log1 i ≤ 3 :=
      le_trans (batchCallCount_le_length log1 i) hlen
    cases r1 with
    | none => exact hcount1
    | some r =>
      rcases hrb : runBatches p outer (start + 1) rest with ⟨r2, log2⟩
      have hge : ∀ u ∈ log2, start + 1 ≤ u.2.1 := by
        intro u hu
        have := runBatches_log_ge p outer rest (start + 1) u
        rw [hrb] at this
        exact this hu
      have hcount2 : batchCallCount log2 i ≤ 3 := by
        have := ih (start + 1) i
        rw [hrb] at this
        exact this
      have hsplit : ∀ r3 : Option (List Embedding),
          batchCallCount (log1 ++ log2) i ≤ 3 := by
        intro _
        rw [batchCallCount_append]
        by_cases hi : i = start
        · have h2 : batchCallCount log2 i = 0 := by
            refine batchCallCount_eq_zero log2 i ?_
            intro u hu
            have := hge u hu
            omega
          omega
        · have h1 : batchCallCount log1 i = 0 := by
            refine batchCallCount_eq_zero log1 i ?_
            intro u hu
            rw [hidx u hu]
            exact fun hc => hi hc.symm
          omega
      cases r2 with
      | none => exact hsplit none
      | some rs => exact hsplit (some rs)

/-- Whenever one pass of the sequential batch loop succeeds, its value is the
concatenation of one embedding per item of each batch, in order. -/
theorem runBatches_value (p : EmbedProvider) (outer : Nat) :
    ∀ (bs : List (List String)) (start : Nat) (r : List Embedding),
      (runBatches p outer start bs).1 = some r →
      r = (bs.map (fun b => b.map p.embed)).flatten := by
  intro bs
  induction bs with
  | nil =>
    intro start r h
    simp only [runBatches] at h
    simp at h
    simp [h.symm]
  | cons b rest ih =>
    intro start r h
    simp only [runBatches] at h
    rcases hab : attemptBatch p outer start b 3 0 with ⟨r1, log1⟩
    rw [hab] at h
    cases r1 with
    | none => simp at h
    | some rb =>
      have hrb : rb = b.map p.embed := by
        refine attemptBatch_value p outer start b 3 0 rb ?_
        rw [hab]
      rcases hrr : runBatches p outer (start + 1) rest with ⟨r2, log2⟩
      rw [hrr] at h
      cases r2 with
      | none => simp at h
      | some rs =>
        simp at h
        have hrs : rs = (rest.map (fun b => b.map p.embed)).flatten := by
          refine ih (start + 1) rs ?_
          rw [hrr]
        rw [List.map_cons, List.flatten_cons, ← h, hrb, hrs]

/-- If every batch index succeeds within its three attempts on a given outer
attempt, that pass of the sequential batch loop succeeds with the full
concatenated result. -/
theorem runBatches_success (p : EmbedProvider) (outer : Nat)
    (hs : ∀ i, ∃ a, a < 3 ∧ p.fails outer i a = false) :
    ∀ (bs : List (List String)) (start : Nat),
      (runBatches p outer start bs).1 =
        some ((bs.map (fun b => b.map p.embed)).flatten) := by
  intro bs
  induction bs with
  | nil => simp [runBatches]
  | cons b rest ih =>
    intro start
    simp only [runBatches]
    rcases hab : attemptBatch p outer start b 3 0 with ⟨r1, log1⟩
    have hok : r1 = some (b.map p.embed) := by
      have := attemptBatch_success p outer start b (hs start)
      rw [hab] at this
      exact this
    subst hok
    rcases hrr : runBatches p outer (start + 1) rest with ⟨r2, log2⟩
    have hok2 : r2 = some ((rest.map (fun b => b.map p.embed)).flatten) := by
      have := ih (start + 1)
      rw [hrr] at this
      exact this
    subst hok2
    simp

/-- Whenever the large-input outer loop succeeds, its value comes from one
successful full pass over the batches. -/
theorem embedLargeLoop_value (p : EmbedProvider) (l : List String) :
    ∀ (fuel outer : Nat) (r : List Embedding),
      (embedLargeLoop p l fuel outer).1 = some r →
      r = ((chunksOf5 l).map (fun b => b.map p.embed)).flatten := by
  intro fuel
  induction fuel with
  | zero => intro outer r h; simp [embedLargeLoop] at h
  | succ n ih =>
    intro outer r h
    simp only [embedLargeLoop] at h
    rcases hrb : runBatches p outer 0 (chunksOf5 l) with ⟨r1, log1⟩
    rw [hrb] at h
    cases r1 with
    | some rr =>
      simp at h
      subst h
      refine runBatches_value p outer (chunksOf5 l) 0 rr ?_
      rw [hrb]
    | none =>
      simp at h
      exact ih (outer + 1) r h

/-- Whenever the small-input loop succeeds, its value is one embedding per
input item, in order. -/
theorem embedSmallLoop_value (p : EmbedProvider) (l : List String) :
    ∀ (fuel a : Nat) (r : List Embedding),
      (embedSmallLoop p l fuel a).1 = some r → r = l.map p.embed := by
  intro fuel
  induction fuel with
  | zero => intro a r h; simp [embedSmallLoop] at h
  | succ n ih =>
    intro a r h
    simp only [embedSmallLoop] at h
    by_cases hf : p.directFails a
    · rw [if_pos hf] at h
      exact ih (a + 1) r h
    · rw [if_neg hf] at h
      simp at h
      exact h.symm

/-- The flattened per-batch embeddings are exactly the embeddings of the
flattened batches. -/
theorem chunks_map_flatten (p : EmbedProvider) (l : List String) :
    ((chunksOf5 l).map (fun b => b.map p.embed)).flatten = l.map p.embed := by
  rw [← List.map_flatten, chunksOf5_flatten]

/-- C6: for an input of more than five texts, `get_embedding` splits the input
into consecutive batches of at most five (their concatenation restores the
input), and when every batch succeeds on the first outer attempt the call
returns exactly one vector per input item, in input order. -/
theorem embedding_batch_integrity (p : EmbedProvider) (l : List String)
    (h5 : 5 < l.length)
    (hs : ∀ i, ∃ a, a < 3 ∧ p.fails 0 i a = false) :
    (chunksOf5 l).flatten = l ∧
    (∀ c ∈ chunksOf5 l, c ≠ [] ∧ c.length ≤ 5) ∧
    (get_embedding_list p l).1 = some (l.map p.embed) := by
  refine ⟨chunksOf5_flatten l, chunksOf5_mem l, ?_⟩
  unfold get_embedding_list
  rw [if_neg (by omega)]
  show (embedLargeLoop p l 3 0).1 = some (l.map p.embed)
  simp only [embedLargeLoop]
  rcases hrb : runBatches p 0 0 (chunksOf5 l) with ⟨r1, log1⟩
  have hok : r1 = some (((chunksOf5 l).map (fun b => b.map p.embed)).flatten) := by
    have := runBatches_success p 0 hs (chunksOf5 l) 0
    rw [hrb] at this
    exact this
  subst hok
  simp [chunks_map_flatten]

/-- Witness for C6 at the spec's example: twelve items split into batches of
sizes five, five and two, and the never-failing provider yields twelve vectors
in order. -/
theorem embedding_batch_integrity_witness :
    ((chunksOf5 l12).map List.length = [5, 5, 2]) ∧
    (get_embedding_list pEx l12).1 = some (l12.map pEx.embed) :=
  ⟨by decide,
   (embedding_batch_integrity pEx l12 (by decide)
     (fun i => ⟨0, by omega, rfl⟩)).2.2⟩

/-- The small-input loop logs at most `fuel` provider calls. -/
theorem embedSmallLoop_log_length (p : EmbedProvider) (l : List String) :
    ∀ (fuel a : Nat), (embedSmallLoop p l fuel a).2.length ≤ fuel := by
  intro fuel
  induction fuel with
  | zero => intro a; simp [embedSmallLoop]
  | succ n ih =>
    intro a
    simp only [embedSmallLoop]
    by_cases hf : p.directFails a
    · rw [if_pos hf]
      simpa using Nat.succ_le_succ (ih (a + 1))
    · rw [if_neg hf]
      simp

/-- Across the outer retry loop, each batch index is attempted at most three
times per pass and at most `3 * fuel` times in total. -/
theorem embedLargeLoop_count (p : EmbedProvider) (l : List String) :
    ∀ (fuel outer i : Nat),
      batchCallCount (embedLargeLoop p l fuel outer).2 i ≤ 3 * fuel := by
  intro fuel
  induction fuel with
  | zero => intro outer i; simp [embedLargeLoop, batchCallCount]
  | succ n ih =>
    intro outer i
    simp only [embedLargeLoop]
    rcases hrb : runBatches p outer 0 (chunksOf5 l) with ⟨r1, log1⟩
    have h1 : batchCallCount log1 i ≤ 3 := by
      have := runBatches_count_le_three p outer (chunksOf5 l) 0 i
      rw [hrb] at this
      exact this
    cases r1 with
    | some rr =>
      dsimp only
      omega
    | none =>
      dsimp only
      rw [batchCallCount_append]
      have h2 := ih (outer + 1) i
      omega

/-- Counterexample to C7: with a provider for which batch index 1 always
fails, a six-item call attempts that batch nine times (three inner attempts in
each of three outer passes), not at most three. -/
theorem embedding_batch_attempted_nine_times_counterexample :
    batchCallCount (get_embedding_list pBad l6).2 1 = 9 ∧ ¬ (9 ≤ 3) := by
  decide

/-- C7 amended: each batch is attempted at most three times within one pass of
the outer retry loop, the whole pass is itself retried up to three times (so a
batch may be attempted up to nine times in one call), and a failed batch never
yields a partial vector list: every successful call returns exactly one vector
per input item. -/
theorem embedding_retry_bounds (p : EmbedProvider) (l : List String)
    (bs : List (List String)) (outer start i : Nat) :
    batchCallCount (runBatches p outer start bs).2 i ≤ 3 ∧
    batchCallCount (embedLargeLoop p l 3 0).2 i ≤ 9 ∧
    ∀ r, (get_embedding_list p l).1 = some r → r = l.map p.embed := by
  refine ⟨runBatches_count_le_three p outer bs start i, embedLargeLoop_count p l 3 0 i, ?_⟩
  intro r h
  unfold get_embedding_list at h
  by_cases hlen : l.length ≤ 5
  · rw [if_pos hlen] at h
    exact embedSmallLoop_value p l 3 0 r h
  · rw [if_neg hlen] at h
    rw [embedLargeLoop_value p l 3 0 r h]
    exact chunks_map_flatten p l

/-- Witness for C7 amended: the never-failing provider's successful twelve-item
call returns exactly twelve vectors, one per input item. -/
theorem embedding_retry_bounds_witness :
    (get_embedding_list pEx l12).1 = some (List.replicate 12 ([] : List Rat)) ∧
    List.replicate 12 ([] : List Rat) = l12.map pEx.embed :=
  ⟨by decide,
   (embedding_retry_bounds pEx l12 [] 0 0 0).2.2 (List.replicate 12 ([] : List Rat))
     (by decide)⟩
